import Mathlib

set_option linter.unusedVariables false

namespace Squall

/-! Shallow embedding of the Squall event dispatcher core:
    `src/squall/Dispatcher.hxx` (the variant with the `m_cleaning` flag)
    together with the watcher classes of `src/unnamed/part_003`
    (`Watcher.hxx`: `TimerWatcher`, `IoWatcher`, `SignalWatcher`).

    Modelling conventions:
    * a target (the `const T *` registry key) is a `Nat`;
    * C `double` is `Rat` (only comparisons with 0 and the constants
      -1 / 0 occur, so this is order-faithful for non-NaN doubles);
    * C `int` is `Int`;
    * a watcher's registration with the libev loop is its `active` flag
      (`ev_*_start` sets it, `ev_*_stop` clears it);
    * calls to the user handler `on_target_event` and to the
      `on_target_apply` / `on_target_free` hooks are recorded in a trace;
      the user handler itself is modelled as a pure function
      `Nat → Int → Bool` giving the value it returns. -/

/-- Event code `EV_READ` from ev.h. -/
def Event.Read : Int := 1

/-- Event code `EV_WRITE` from ev.h. -/
def Event.Write : Int := 2

/-- Event code `EV_TIMER` from ev.h. -/
def Event.Timer : Int := 256

/-- Event code `EV_SIGNAL` from ev.h. -/
def Event.Signal : Int := 1024

/-- Event code `EV_CLEANUP` from ev.h. -/
def Event.Cleanup : Int := 262144

/-- Event code `EV_ERROR` from ev.h. -/
def Event.Error : Int := 2147483648

/-- State of one watcher: kind, kind-specific parameters and the
    active (= registered with the loop) flag. -/
inductive Watcher where
  | timer (after : Rat) (rpt : Rat) (active : Bool)
  | io (fileno : Int) (events : Int) (active : Bool)
  | sig (signum : Int) (active : Bool)
deriving DecidableEq

/-- Model of `GenericWatcher::is_active`: `watcher.active != 0`. -/
def Watcher.is_active : Watcher → Bool
  | .timer _ _ a => a
  | .io _ _ a => a
  | .sig _ a => a

/-- Model of `GenericWatcher::stop`: `if (is_active()) stop_watching();` —
    net effect on the state is clearing the active flag. -/
def Watcher.stop : Watcher → Watcher
  | .timer a r _ => .timer a r false
  | .io f e _ => .io f e false
  | .sig s _ => .sig s false

/-- Model of `GenericWatcher::start` (no-argument virtual `Watcher::start`):
    `if (!is_active()) start_watching(); return is_active();` —
    the watcher ends up active and `true` is returned. -/
def Watcher.start : Watcher → Watcher × Bool
  | .timer a r _ => (.timer a r true, true)
  | .io f e _ => (.io f e true, true)
  | .sig s _ => (.sig s true, true)

/-- The `after` parameter of a timer watcher (0 for other kinds). -/
def Watcher.timerAfter : Watcher → Rat
  | .timer a _ _ => a
  | _ => 0

/-- The `repeat` parameter of a timer watcher (0 for other kinds). -/
def Watcher.timerRepeat : Watcher → Rat
  | .timer _ r _ => r
  | _ => 0

/-- Model of `TimerWatcher::start(after, repeat)`:
    negative `after` is normalised to -1, negative `repeat` to 0;
    stop if active, `ev_timer_set`, arm only when `after >= 0`,
    return `is_active()`. -/
def TimerWatcher.start (w : Watcher) (after rpt : Rat) : Watcher × Bool :=
  let after2 : Rat := if after < 0 then -1 else after
  let rpt2 : Rat := if rpt < 0 then 0 else rpt
  let armed := decide (0 ≤ after2)
  (Watcher.timer after2 rpt2 armed, armed)

/-- Model of `IoWatcher::start(fileno, revents)`:
    negative `fileno` is normalised to -1, negative `revents` to 0;
    stop if active, `ev_io_set`, arm only when
    `fileno >= 0 && revents > 0`, return `is_active()`. -/
def IoWatcher.start (w : Watcher) (fileno revents : Int) : Watcher × Bool :=
  let fileno2 : Int := if fileno < 0 then -1 else fileno
  let revents2 : Int := if revents < 0 then 0 else revents
  let armed := decide (0 ≤ fileno2) && decide (0 < revents2)
  (Watcher.io fileno2 revents2 armed, armed)

/-- Model of `SignalWatcher::start(signum)`:
    negative `signum` is normalised to -1; stop if active,
    `ev_signal_set`, arm only when `signum >= 0`, return `is_active()`. -/
def SignalWatcher.start (w : Watcher) (signum : Int) : Watcher × Bool :=
  let signum2 : Int := if signum < 0 then -1 else signum
  let armed := decide (0 ≤ signum2)
  (Watcher.sig signum2 armed, armed)

/-- A freshly constructed `TimerWatcher` (zero-initialised `ev_timer`,
    not active). -/
def freshTimer : Watcher := .timer 0 0 false

/-- A freshly constructed `IoWatcher` (constructor does
    `ev_io_set(&watcher, -1, 0)`, not active). -/
def freshIo : Watcher := .io (-1) 0 false

/-- A freshly constructed `SignalWatcher` (constructor does
    `ev_signal_set(&watcher, -1)`, not active). -/
def freshSignal : Watcher := .sig (-1) false

/-- The `approve` lambda of `Dispatcher::watch_timer`:
    `dynamic_cast<TimerWatcher *>` succeeds. -/
def approveTimer : Watcher → Bool
  | .timer _ _ _ => true
  | _ => false

/-- The `approve` lambda of `Dispatcher::watch_io`:
    an `IoWatcher` whose `fileno()` equals the requested one or is -1. -/
def approveIo (fileno : Int) : Watcher → Bool
  | .io f _ _ => decide (f = fileno) || decide (f = -1)
  | _ => false

/-- The `approve` lambda of `Dispatcher::watch_signal`:
    a `SignalWatcher` whose `signum()` equals the requested one or is -1. -/
def approveSignal (signum : Int) : Watcher → Bool
  | .sig s _ => decide (s = signum) || decide (s = -1)
  | _ => false

/-- Observable calls made by the dispatcher: the `on_target_apply` and
    `on_target_free` hooks and invocations of the user handler
    `on_target_event` with an event mask. -/
inductive TraceEv where
  | applyCall (t : Nat)
  | freeCall (t : Nat)
  | handlerCall (t : Nat) (revents : Int)
deriving DecidableEq

/-- Dispatcher state: the `m_cleaning` flag, the
    `std::map<const T *, Watchers> targets` registry (association list),
    whether apply/free hooks were configured (`on_target_present`),
    and the recorded trace of hook / handler calls. -/
structure Dispatcher where
  m_cleaning : Bool
  targets : List (Nat × List Watcher)
  on_target_present : Bool
  trace : List TraceEv
deriving DecidableEq

/-- Model of `targets.find(target)`: the watcher sequence of `t`, if registered. -/
def findTarget : List (Nat × List Watcher) → Nat → Option (List Watcher)
  | [], _ => none
  | p :: rest, t => if p.1 = t then some p.2 else findTarget rest t

/-- Replace the watcher sequence stored under key `t`
    (in-place mutation of the mapped `Watchers` vector). -/
def setTarget (reg : List (Nat × List Watcher)) (t : Nat) (ws : List Watcher) :
    List (Nat × List Watcher) :=
  reg.map (fun p => if p.1 = t then (t, ws) else p)

/-- Model of `targets.erase(&target)`: remove the entry keyed by `t`. -/
def eraseTarget : List (Nat × List Watcher) → Nat → List (Nat × List Watcher)
  | [], _ => []
  | p :: rest, t => if p.1 = t then eraseTarget rest t else p :: eraseTarget rest t

/-- Registry keys, in iteration order. -/
def keys (reg : List (Nat × List Watcher)) : List Nat := reg.map Prod.fst

/-- The scan loop of `setup_watching`: walk the target's watcher
    sequence in insertion order, run the kind-specific `start` on the
    first approved watcher. `none` when no watcher is approved. -/
def updateFirst (approve : Watcher → Bool) (pstart : Watcher → Watcher × Bool) :
    List Watcher → Option (List Watcher × Bool)
  | [] => none
  | w :: ws =>
    if approve w then
      some ((pstart w).1 :: ws, (pstart w).2)
    else
      match updateFirst approve pstart ws with
      | some (ws2, r) => some (w :: ws2, r)
      | none => none

/-- Model of `Dispatcher::setup_watching` followed by the `p_watcher->start(...)`
    call of the `watch_*` member: insert the target entry (firing
    `on_target_apply` when it is new and hooks are configured), reuse the
    first approved watcher or append a fresh one, and run the
    kind-specific parameterised start on it, returning its result. -/
def setup_and_start (d : Dispatcher) (t : Nat) (approve : Watcher → Bool)
    (fresh : Watcher) (pstart : Watcher → Watcher × Bool) : Dispatcher × Bool :=
  let reg0 := if (findTarget d.targets t).isSome then d.targets else d.targets ++ [(t, [])]
  let tr0 := if (findTarget d.targets t).isSome then d.trace
             else if d.on_target_present then d.trace ++ [TraceEv.applyCall t] else d.trace
  let ws := (findTarget reg0 t).getD []
  match updateFirst approve pstart ws with
  | some (ws2, ret) => ({ d with targets := setTarget reg0 t ws2, trace := tr0 }, ret)
  | none =>
      ({ d with targets := setTarget reg0 t (ws ++ [(pstart fresh).1]), trace := tr0 },
       (pstart fresh).2)

/-- Model of `Dispatcher::watch_timer(target, timeout)`. -/
def watch_timer (d : Dispatcher) (t : Nat) (timeout : Rat) : Dispatcher × Bool :=
  if d.m_cleaning then (d, false)
  else setup_and_start d t approveTimer freshTimer (fun w => TimerWatcher.start w timeout timeout)

/-- Model of `Dispatcher::watch_io(target, fileno, events)`. -/
def watch_io (d : Dispatcher) (t : Nat) (fileno events : Int) : Dispatcher × Bool :=
  if d.m_cleaning then (d, false)
  else setup_and_start d t (approveIo fileno) freshIo (fun w => IoWatcher.start w fileno events)

/-- Model of `Dispatcher::watch_signal(target, signum)`. -/
def watch_signal (d : Dispatcher) (t : Nat) (signum : Int) : Dispatcher × Bool :=
  if d.m_cleaning then (d, false)
  else setup_and_start d t (approveSignal signum) freshSignal (fun w => SignalWatcher.start w signum)

/-- Model of `Dispatcher::enable_watching(target)`: guarded by `m_cleaning`;
    starts every inactive watcher of the target. -/
def enable_watching (d : Dispatcher) (t : Nat) : Dispatcher × Bool :=
  if d.m_cleaning then (d, false)
  else
    match findTarget d.targets t with
    | some ws =>
        ({ d with targets :=
            setTarget d.targets t (ws.map fun w => if w.is_active then w else (Watcher.start w).1) },
         true)
    | none => (d, false)

/-- Model of `Dispatcher::disable_watching(target)`: NOT guarded by `m_cleaning`;
    stops every watcher of the target. -/
def disable_watching (d : Dispatcher) (t : Nat) : Dispatcher × Bool :=
  match findTarget d.targets t with
  | some ws => ({ d with targets := setTarget d.targets t (ws.map Watcher.stop) }, true)
  | none => (d, false)

/-- Model of `Dispatcher::release_watching(target)`: NOT guarded by `m_cleaning`;
    stops and destroys the target's watchers, erases the registry entry
    and fires `on_target_free` when hooks are configured. -/
def release_watching (d : Dispatcher) (t : Nat) : Dispatcher × Bool :=
  match findTarget d.targets t with
  | some _ =>
      ({ d with targets := eraseTarget d.targets t,
                trace := if d.on_target_present then d.trace ++ [TraceEv.freeCall t]
                         else d.trace },
       true)
  | none => (d, false)

/-- Model of `Dispatcher::handler(target, revents)`: disable all the target's
    watchers, invoke the user handler, re-enable on a true return. -/
def handler (onEvent : Nat → Int → Bool) (d : Dispatcher) (t : Nat) (rev : Int) : Dispatcher :=
  let d1 := (disable_watching d t).1
  let d2 := { d1 with trace := d1.trace ++ [TraceEv.handlerCall t rev] }
  if onEvent t rev then (enable_watching d2 t).1 else d2

/-- Targets having at least one active watcher, in registry order
    (the first snapshot loop of `Dispatcher::cleanup`). -/
def activeTargets : List (Nat × List Watcher) → List Nat
  | [] => []
  | p :: rest =>
      if p.2.any Watcher.is_active then p.1 :: activeTargets rest else activeTargets rest

/-- Model of `Dispatcher::cleanup()`: set `m_cleaning`, snapshot all / active
    targets, run the delivery path with `Event::Cleanup` for each active
    target, release every target, clear `m_cleaning`. -/
def cleanup (onEvent : Nat → Int → Bool) (d : Dispatcher) : Dispatcher :=
  let d1 := { d with m_cleaning := true }
  let all := keys d1.targets
  let act := activeTargets d1.targets
  let d2 := act.foldl (fun s t => handler onEvent s t Event.Cleanup) d1
  let d3 := all.foldl (fun s t => (release_watching s t).1) d2
  { d3 with m_cleaning := false }

/-- Target `t` has an entry in the registry. -/
def hasTarget (d : Dispatcher) (t : Nat) : Bool := (findTarget d.targets t).isSome

/-- All of `t`'s watchers are inactive (vacuously true when absent). -/
def allStopped (d : Dispatcher) (t : Nat) : Bool :=
  match findTarget d.targets t with
  | some ws => ws.all (fun w => !w.is_active)
  | none => true

/-- All of `t`'s watchers are active (vacuously true when absent). -/
def allActive (d : Dispatcher) (t : Nat) : Bool :=
  match findTarget d.targets t with
  | some ws => ws.all Watcher.is_active
  | none => true

/-- Registry-level test: `t` is registered with ≥ 1 active watcher. -/
def lookupActive (reg : List (Nat × List Watcher)) (t : Nat) : Bool :=
  match findTarget reg t with
  | some ws => ws.any Watcher.is_active
  | none => false

/-- Target `t` is registered and has at least one active watcher. -/
def anyActiveAt (d : Dispatcher) (t : Nat) : Bool :=
  lookupActive d.targets t

/-- Number of occurrences of one trace event. -/
def countEv (tr : List TraceEv) (e : TraceEv) : Nat :=
  (tr.filter (fun x => decide (x = e))).length

/-- Number of `on_target_apply` calls for `t`. -/
def countApply (tr : List TraceEv) (t : Nat) : Nat := countEv tr (TraceEv.applyCall t)

/-- Number of `on_target_free` calls for `t`. -/
def countFree (tr : List TraceEv) (t : Nat) : Nat := countEv tr (TraceEv.freeCall t)

/-- Number of handler invocations for `t` with `revents = Cleanup`. -/
def countCleanupCalls (tr : List TraceEv) (t : Nat) : Nat :=
  countEv tr (TraceEv.handlerCall t Event.Cleanup)

/-- A dispatcher constructed with apply/free hooks: not cleaning,
    empty registry, empty trace. -/
def initHooked : Dispatcher :=
  { m_cleaning := false, targets := [], on_target_present := true, trace := [] }

/-- A dispatcher constructed without hooks. -/
def initPlain : Dispatcher :=
  { m_cleaning := false, targets := [], on_target_present := false, trace := [] }

/-- One externally triggerable dispatcher operation: the public mutators,
    an event delivery by the loop, and the cleanup scan. -/
inductive Op where
  | wtimer (t : Nat) (timeout : Rat)
  | wio (t : Nat) (fileno events : Int)
  | wsig (t : Nat) (signum : Int)
  | enable (t : Nat)
  | disable (t : Nat)
  | release (t : Nat)
  | deliver (t : Nat) (rev : Int)
  | clean

/-- Execute one operation on the dispatcher. -/
def runOp (onEvent : Nat → Int → Bool) (d : Dispatcher) : Op → Dispatcher
  | .wtimer t q => (watch_timer d t q).1
  | .wio t f e => (watch_io d t f e).1
  | .wsig t s => (watch_signal d t s).1
  | .enable t => (enable_watching d t).1
  | .disable t => (disable_watching d t).1
  | .release t => (release_watching d t).1
  | .deliver t rev => handler onEvent d t rev
  | .clean => cleanup onEvent d

/-- Execute a sequence of operations on a hook-configured dispatcher. -/
def run (onEvent : Nat → Int → Bool) (ops : List Op) : Dispatcher :=
  ops.foldl (runOp onEvent) initHooked

/-- A user handler that always returns true. -/
def onTrue : Nat → Int → Bool := fun _ _ => true

/-- Example state: one target with an armed timer and an armed signal
    watcher, no hooks. -/
def exDelivery : Dispatcher :=
  { m_cleaning := false,
    targets := [(0, [Watcher.timer 1 1 true, Watcher.sig 2 true])],
    on_target_present := false, trace := [] }

/-- Example state: mid-cleanup (`m_cleaning` set) with one registered
    target holding an armed timer watcher, hooks configured. -/
def exCleaning : Dispatcher :=
  { m_cleaning := true,
    targets := [(0, [Watcher.timer 1 1 true])],
    on_target_present := true, trace := [] }

/-- Example state: an active target and an inactive-only target,
    hooks configured. -/
def exTwoTargets : Dispatcher :=
  { m_cleaning := false,
    targets := [(0, [Watcher.timer 1 1 true]), (1, [Watcher.sig 5 false])],
    on_target_present := true, trace := [] }

/-- Invariant tying the apply/free hook trace to registry membership:
    keys are unique, hooks are configured, and for every target the
    number of `on_apply` calls equals the number of `on_free` calls plus
    one iff the target is currently registered. -/
def hookInv (d : Dispatcher) : Prop :=
  (keys d.targets).Nodup ∧ d.on_target_present = true ∧
  ∀ t, countApply d.trace t = countFree d.trace t + (if hasTarget d t = true then 1 else 0)

/-! ### Registry lemmas -/

theorem setTarget_of_none (reg : List (Nat × List Watcher)) (t : Nat) (ws : List Watcher)
    (h : findTarget reg t = none) : setTarget reg t ws = reg := by
  induction reg with
  | nil => rfl
  | cons p rest ih =>
    by_cases hp : p.1 = t
    · simp [findTarget, hp] at h
    · simp only [findTarget, hp, if_false] at h
      simp [setTarget, hp, List.map] at ih ⊢
      exact ih h

theorem findTarget_setTarget_self (reg : List (Nat × List Watcher)) (t : Nat)
    (ws l : List Watcher) (h : findTarget reg t = some l) :
    findTarget (setTarget reg t ws) t = some ws := by
  induction reg with
  | nil => simp [findTarget] at h
  | cons p rest ih =>
    by_cases hp : p.1 = t
    · simp [setTarget, findTarget, hp]
    · simp only [findTarget, hp, if_false] at h
      simp only [setTarget, List.map, hp, if_false, findTarget] at ih ⊢
      exact ih h

theorem keys_setTarget (reg : List (Nat × List Watcher)) (t : Nat) (ws : List Watcher) :
    keys (setTarget reg t ws) = keys reg := by
  induction reg with
  | nil => rfl
  | cons p rest ih =>
    show ((if p.1 = t then (t, ws) else p).1 :: keys (setTarget rest t ws)) = p.1 :: keys rest
    by_cases hp : p.1 = t
    · rw [if_pos hp, ih, hp]
    · rw [if_neg hp, ih]

theorem findTarget_isSome_iff (reg : List (Nat × List Watcher)) (t : Nat) :
    (findTarget reg t).isSome = true ↔ t ∈ keys reg := by
  induction reg with
  | nil => simp [findTarget, keys]
  | cons p rest ih =>
    by_cases hp : p.1 = t
    · simp [findTarget, keys, hp]
    · simp [findTarget, keys, hp, ih, Ne.symm hp]

theorem findTarget_eq_none_iff (reg : List (Nat × List Watcher)) (t : Nat) :
    findTarget reg t = none ↔ t ∉ keys reg := by
  rw [← findTarget_isSome_iff]
  cases findTarget reg t <;> simp

theorem findTarget_append_of_none (reg reg2 : List (Nat × List Watcher)) (t : Nat)
    (h : findTarget reg t = none) : findTarget (reg ++ reg2) t = findTarget reg2 t := by
  induction reg with
  | nil => rfl
  | cons p rest ih =>
    by_cases hp : p.1 = t
    · simp [findTarget, hp] at h
    · simp only [findTarget, hp, if_false] at h
      simp only [List.cons_append, findTarget, hp, if_false]
      exact ih h

theorem keys_append (reg reg2 : List (Nat × List Watcher)) :
    keys (reg ++ reg2) = keys reg ++ keys reg2 := by
  simp [keys]

theorem eraseTarget_of_none (reg : List (Nat × List Watcher)) (t : Nat)
    (h : findTarget reg t = none) : eraseTarget reg t = reg := by
  induction reg with
  | nil => rfl
  | cons p rest ih =>
    by_cases hp : p.1 = t
    · simp [findTarget, hp] at h
    · simp only [findTarget, hp, if_false] at h
      simp [eraseTarget, hp, ih h]

theorem findTarget_eraseTarget_self (reg : List (Nat × List Watcher)) (t : Nat) :
    findTarget (eraseTarget reg t) t = none := by
  induction reg with
  | nil => rfl
  | cons p rest ih =>
    by_cases hp : p.1 = t <;> simp [eraseTarget, findTarget, hp, ih]

theorem findTarget_eraseTarget_ne (reg : List (Nat × List Watcher)) (t u : Nat)
    (h : u ≠ t) : findTarget (eraseTarget reg t) u = findTarget reg u := by
  induction reg with
  | nil => rfl
  | cons p rest ih =>
    show findTarget (if p.1 = t then eraseTarget rest t else p :: eraseTarget rest t) u
        = (if p.1 = u then some p.2 else findTarget rest u)
    by_cases hp : p.1 = t
    · rw [if_pos hp, ih, if_neg (by rw [hp]; exact fun hh => h hh.symm)]
    · rw [if_neg hp]
      show (if p.1 = u then some p.2 else findTarget (eraseTarget rest t) u) = _
      by_cases hu : p.1 = u
      · rw [if_pos hu, if_pos hu]
      · rw [if_neg hu, if_neg hu, ih]

theorem mem_eraseTarget (reg : List (Nat × List Watcher)) (t : Nat) (p : Nat × List Watcher) :
    p ∈ eraseTarget reg t ↔ p ∈ reg ∧ p.1 ≠ t := by
  induction reg with
  | nil => simp [eraseTarget]
  | cons q rest ih =>
    by_cases hq : q.1 = t
    · simp only [eraseTarget, hq, if_true, ih, List.mem_cons]
      constructor
      · rintro ⟨h1, h2⟩; exact ⟨Or.inr h1, h2⟩
      · rintro ⟨h1 | h1, h2⟩
        · subst h1; exact absurd hq h2
        · exact ⟨h1, h2⟩
    · simp only [eraseTarget, hq, if_false, List.mem_cons, ih]
      constructor
      · rintro (h1 | ⟨h1, h2⟩)
        · subst h1; exact ⟨Or.inl rfl, hq⟩
        · exact ⟨Or.inr h1, h2⟩
      · rintro ⟨h1 | h1, h2⟩
        · exact Or.inl h1
        · exact Or.inr ⟨h1, h2⟩

theorem keys_eraseTarget_sublist (reg : List (Nat × List Watcher)) (t : Nat) :
    (keys (eraseTarget reg t)).Sublist (keys reg) := by
  induction reg with
  | nil => simp [eraseTarget, keys]
  | cons p rest ih =>
    by_cases hp : p.1 = t
    · simp only [eraseTarget, hp, if_true, keys, List.map]
      exact ih.trans (List.sublist_cons_self _ _)
    · simp only [eraseTarget, hp, if_false, keys, List.map]
      exact ih.cons₂ _

/-! ### Watcher lemmas -/

theorem is_active_stop (w : Watcher) : (Watcher.stop w).is_active = false := by
  cases w <;> rfl

theorem is_active_start (w : Watcher) : (Watcher.start w).1.is_active = true := by
  cases w <;> rfl

theorem all_not_active_map_stop (ws : List Watcher) :
    (ws.map Watcher.stop).all (fun w => !w.is_active) = true := by
  induction ws with
  | nil => rfl
  | cons w ws ih => simp [List.all_cons, is_active_stop, ih]

theorem all_active_map_arm (ws : List Watcher) :
    (ws.map fun w => if w.is_active then w else (Watcher.start w).1).all
      Watcher.is_active = true := by
  induction ws with
  | nil => rfl
  | cons w ws ih =>
    by_cases hw : w.is_active <;> simp [List.all_cons, hw, is_active_start, ih]

/-! ### Frame lemmas for the dispatcher operations -/

theorem disable_spec (d : Dispatcher) (t : Nat) :
    (disable_watching d t).1.m_cleaning = d.m_cleaning
    ∧ (disable_watching d t).1.on_target_present = d.on_target_present
    ∧ (disable_watching d t).1.trace = d.trace
    ∧ keys (disable_watching d t).1.targets = keys d.targets := by
  cases h : findTarget d.targets t <;> simp [disable_watching, h, keys_setTarget]

theorem enable_spec (d : Dispatcher) (t : Nat) :
    (enable_watching d t).1.m_cleaning = d.m_cleaning
    ∧ (enable_watching d t).1.on_target_present = d.on_target_present
    ∧ (enable_watching d t).1.trace = d.trace
    ∧ keys (enable_watching d t).1.targets = keys d.targets := by
  by_cases hc : d.m_cleaning
  · simp [enable_watching, hc]
  · cases h : findTarget d.targets t <;> simp [enable_watching, hc, h, keys_setTarget]

theorem release_targets (d : Dispatcher) (t : Nat) :
    (release_watching d t).1.targets = eraseTarget d.targets t := by
  cases h : findTarget d.targets t with
  | none => simp [release_watching, h, eraseTarget_of_none _ _ h]
  | some ws => simp [release_watching, h]

theorem release_spec (d : Dispatcher) (t : Nat) :
    (release_watching d t).1.m_cleaning = d.m_cleaning
    ∧ (release_watching d t).1.on_target_present = d.on_target_present := by
  cases h : findTarget d.targets t <;> simp [release_watching, h]

theorem release_trace_found (d : Dispatcher) (t : Nat) (ws : List Watcher)
    (h : findTarget d.targets t = some ws) (hp : d.on_target_present = true) :
    (release_watching d t).1.trace = d.trace ++ [TraceEv.freeCall t] := by
  simp [release_watching, h, hp]

theorem release_trace_none (d : Dispatcher) (t : Nat)
    (h : findTarget d.targets t = none) : (release_watching d t).1.trace = d.trace := by
  simp [release_watching, h]

theorem release_of_none (d : Dispatcher) (t : Nat)
    (h : findTarget d.targets t = none) : release_watching d t = (d, false) := by
  unfold release_watching
  rw [h]

theorem handler_spec (onEvent : Nat → Int → Bool) (d : Dispatcher) (t : Nat) (rev : Int) :
    (handler onEvent d t rev).m_cleaning = d.m_cleaning
    ∧ (handler onEvent d t rev).on_target_present = d.on_target_present
    ∧ (handler onEvent d t rev).trace = d.trace ++ [TraceEv.handlerCall t rev]
    ∧ keys (handler onEvent d t rev).targets = keys d.targets := by
  have h1 := disable_spec d t
  have h2 := enable_spec
    { (disable_watching d t).1 with
      trace := (disable_watching d t).1.trace ++ [TraceEv.handlerCall t rev] } t
  unfold handler
  by_cases he : onEvent t rev = true
  · simp only [he, if_true]
    refine ⟨?_, ?_, ?_, ?_⟩ <;> simp_all
  · simp only [he, if_false]
    refine ⟨?_, ?_, ?_, ?_⟩ <;> simp_all

theorem setup_spec (d : Dispatcher) (t : Nat) (approve : Watcher → Bool)
    (fresh : Watcher) (pstart : Watcher → Watcher × Bool) :
    (setup_and_start d t approve fresh pstart).1.m_cleaning = d.m_cleaning
    ∧ (setup_and_start d t approve fresh pstart).1.on_target_present = d.on_target_present
    ∧ keys (setup_and_start d t approve fresh pstart).1.targets
        = (if (findTarget d.targets t).isSome then keys d.targets else keys d.targets ++ [t])
    ∧ (setup_and_start d t approve fresh pstart).1.trace
        = (if (findTarget d.targets t).isSome then d.trace
           else if d.on_target_present then d.trace ++ [TraceEv.applyCall t] else d.trace) := by
  unfold setup_and_start
  by_cases hf : (findTarget d.targets t).isSome
  · simp only [hf, if_true]
    cases hu : updateFirst approve pstart
        (((findTarget d.targets t).getD []) : List Watcher) with
    | none => simp [keys_setTarget, hf]
    | some pr => simp [keys_setTarget, hf, hu]
  · simp only [hf, if_false, Bool.false_eq_true]
    have hnone : findTarget d.targets t = none := by
      cases h : findTarget d.targets t
      · rfl
      · rw [h] at hf; simp at hf
    cases hu : updateFirst approve pstart
        (((findTarget (d.targets ++ [(t, [])]) t).getD []) : List Watcher) with
    | none =>
        simp only [hu]
        refine ⟨by trivial, by trivial, ?_, ?_⟩
        · rw [keys_setTarget, keys_append]
          simp [keys, hnone, hf]
        · simp [hnone, hf]
    | some pr =>
        simp only [hu]
        refine ⟨by trivial, by trivial, ?_, ?_⟩
        · rw [keys_setTarget, keys_append]
          simp [keys, hnone, hf]
        · simp [hnone, hf]

/-! ### Fold lemmas for the cleanup scan -/

theorem foldl_handler_spec (onEvent : Nat → Int → Bool) (rev : Int) :
    ∀ (ts : List Nat) (d : Dispatcher),
    (ts.foldl (fun s t => handler onEvent s t rev) d).m_cleaning = d.m_cleaning
    ∧ (ts.foldl (fun s t => handler onEvent s t rev) d).on_target_present = d.on_target_present
    ∧ (ts.foldl (fun s t => handler onEvent s t rev) d).trace
        = d.trace ++ ts.map (fun t => TraceEv.handlerCall t rev)
    ∧ keys (ts.foldl (fun s t => handler onEvent s t rev) d).targets = keys d.targets
  | [], d => by simp
  | t :: ts, d => by
    have ih := foldl_handler_spec onEvent rev ts (handler onEvent d t rev)
    have hs := handler_spec onEvent d t rev
    simp only [List.foldl_cons, List.map_cons]
    refine ⟨?_, ?_, ?_, ?_⟩
    · rw [ih.1, hs.1]
    · rw [ih.2.1, hs.2.1]
    · rw [ih.2.2.1, hs.2.2.1, List.append_assoc, List.singleton_append]
    · rw [ih.2.2.2, hs.2.2.2]

theorem foldl_release_targets : ∀ (ts : List Nat) (d : Dispatcher),
    (∀ p ∈ d.targets, p.1 ∈ ts) →
    (ts.foldl (fun s t => (release_watching s t).1) d).targets = []
  | [], d, h => by
    cases hd : d.targets with
    | nil => simp only [List.foldl_nil, hd]
    | cons p rest => exact absurd (h p (by rw [hd]; exact List.mem_cons_self p rest)) (by simp)
  | t :: ts, d, h => by
    simp only [List.foldl_cons]
    apply foldl_release_targets ts
    intro p hp
    rw [release_targets] at hp
    rcases (mem_eraseTarget d.targets t p).1 hp with ⟨hmem, hne⟩
    rcases List.mem_cons.1 (h p hmem) with h1 | h1
    · exact absurd h1 hne
    · exact h1

theorem foldl_release_all : ∀ (ks : List Nat) (d : Dispatcher),
    ks = keys d.targets → d.on_target_present = true → ks.Nodup →
    (ks.foldl (fun s t => (release_watching s t).1) d).targets = []
    ∧ (ks.foldl (fun s t => (release_watching s t).1) d).trace
        = d.trace ++ ks.map TraceEv.freeCall
    ∧ (ks.foldl (fun s t => (release_watching s t).1) d).m_cleaning = d.m_cleaning
    ∧ (ks.foldl (fun s t => (release_watching s t).1) d).on_target_present = true
  | [], d, hk, hp, hn => by
    have : d.targets = [] := by
      cases hd : d.targets with
      | nil => rfl
      | cons p rest => rw [hd] at hk; simp [keys] at hk
    simp [this, hp]
  | k :: ks, d, hk, hp, hn => by
    cases hd : d.targets with
    | nil => rw [hd] at hk; simp [keys] at hk
    | cons p rest =>
      rw [hd] at hk
      simp only [keys, List.map_cons] at hk
      have hpk : p.1 = k := (List.cons.injEq _ _ _ _ ▸ hk).1.symm
      have hks : ks = keys rest := by
        have := (List.cons.injEq _ _ _ _ ▸ hk).2
        simpa [keys] using this
      have hnotin : k ∉ ks := (List.nodup_cons.1 hn).1
      have hnd : ks.Nodup := (List.nodup_cons.1 hn).2
      have hfind : findTarget d.targets k = some p.2 := by
        rw [hd]; show (if p.1 = k then some p.2 else findTarget rest k) = some p.2
        rw [if_pos hpk]
      have hrest_none : findTarget rest k = none := by
        rw [findTarget_eq_none_iff, ← hks]; exact hnotin
      have htgt : (release_watching d k).1.targets = rest := by
        rw [release_targets, hd]
        show (if p.1 = k then eraseTarget rest k else p :: eraseTarget rest k) = rest
        rw [if_pos hpk, eraseTarget_of_none rest k hrest_none]
      have htr : (release_watching d k).1.trace = d.trace ++ [TraceEv.freeCall k] :=
        release_trace_found d k p.2 hfind hp
      have hsp := release_spec d k
      have ih := foldl_release_all ks (release_watching d k).1
        (by rw [htgt, hks]) (hsp.2.trans hp) hnd
      simp only [List.foldl_cons, List.map_cons]
      refine ⟨ih.1, ?_, ?_, ih.2.2.2⟩
      · rw [ih.2.1, htr, List.append_assoc, List.singleton_append]
      · rw [ih.2.2.1, hsp.1]

/-! ### Trace counting lemmas -/

theorem countEv_append (l1 l2 : List TraceEv) (e : TraceEv) :
    countEv (l1 ++ l2) e = countEv l1 e + countEv l2 e := by
  simp [countEv, List.filter_append]

theorem countEv_singleton (x e : TraceEv) :
    countEv [x] e = if x = e then 1 else 0 := by
  by_cases h : x = e <;> simp [countEv, h]

theorem countEv_map_eq_zero (f : Nat → TraceEv) (e : TraceEv)
    (h : ∀ x, f x ≠ e) : ∀ ts : List Nat, countEv (ts.map f) e = 0
  | [] => rfl
  | t :: ts => by
    have ih := countEv_map_eq_zero f e h ts
    simp only [List.map_cons]
    have : countEv (f t :: ts.map f) e = countEv [f t] e + countEv (ts.map f) e := by
      simpa using countEv_append [f t] (ts.map f) e
    rw [this, countEv_singleton, if_neg (h t), ih]

theorem countEv_map_nodup (f : Nat → TraceEv)
    (hf : ∀ a b, f a = f b → a = b) :
    ∀ (ts : List Nat), ts.Nodup → ∀ t : Nat,
      countEv (ts.map f) (f t) = if t ∈ ts then 1 else 0
  | [], _, t => by simp [countEv]
  | x :: ts, hn, t => by
    have hnotin : x ∉ ts := (List.nodup_cons.1 hn).1
    have hnd : ts.Nodup := (List.nodup_cons.1 hn).2
    have ih := countEv_map_nodup f hf ts hnd t
    simp only [List.map_cons]
    have hsplit : countEv (f x :: ts.map f) (f t)
        = countEv [f x] (f t) + countEv (ts.map f) (f t) := by
      simpa using countEv_append [f x] (ts.map f) (f t)
    rw [hsplit, countEv_singleton, ih]
    by_cases hx : x = t
    · subst hx
      rw [if_pos rfl, if_pos (List.mem_cons_self x ts), if_neg hnotin]
    · have hfx : f x ≠ f t := fun hh => hx (hf _ _ hh)
      rw [if_neg hfx]
      by_cases ht : t ∈ ts
      · rw [if_pos ht, if_pos (List.mem_cons_of_mem x ht)]
      · rw [if_neg ht, if_neg (by simp [hx, ht, List.mem_cons, Ne.symm hx])]

/-! ### activeTargets lemmas -/

theorem mem_activeTargets_sub : ∀ (reg : List (Nat × List Watcher)) (t : Nat),
    t ∈ activeTargets reg → t ∈ keys reg
  | [], t, h => by simp [activeTargets] at h
  | p :: rest, t, h => by
    by_cases hp : p.2.any Watcher.is_active
    · rw [show activeTargets (p :: rest)
          = p.1 :: activeTargets rest by simp [activeTargets, hp]] at h
      rcases List.mem_cons.1 h with h1 | h1
      · simp [keys, h1]
      · exact List.mem_cons_of_mem _ (mem_activeTargets_sub rest t h1)
    · rw [show activeTargets (p :: rest) = activeTargets rest by
          simp [activeTargets, hp]] at h
      exact List.mem_cons_of_mem _ (mem_activeTargets_sub rest t h)

theorem mem_activeTargets_iff : ∀ (reg : List (Nat × List Watcher)),
    (keys reg).Nodup → ∀ t : Nat, t ∈ activeTargets reg ↔ lookupActive reg t = true
  | [], _, t => by simp [activeTargets, lookupActive, findTarget]
  | p :: rest, hn, t => by
    have hnotin : p.1 ∉ keys rest := (List.nodup_cons.1 hn).1
    have hnd : (keys rest).Nodup := (List.nodup_cons.1 hn).2
    have ih := mem_activeTargets_iff rest hnd t
    have hlk : lookupActive (p :: rest) t
        = (if p.1 = t then p.2.any Watcher.is_active else lookupActive rest t) := by
      by_cases hp : p.1 = t <;> simp [lookupActive, findTarget, hp]
    by_cases hp : p.1 = t
    · subst hp
      rw [hlk, if_pos rfl]
      by_cases ha : p.2.any Watcher.is_active
      · rw [show activeTargets (p :: rest) = p.1 :: activeTargets rest by
            simp [activeTargets, ha]]
        simp [ha]
      · rw [show activeTargets (p :: rest) = activeTargets rest by
            simp [activeTargets, ha]]
        constructor
        · intro h; exact absurd (mem_activeTargets_sub rest p.1 h) hnotin
        · intro h; rw [eq_comm] at h; simp [ha] at h
    · rw [hlk, if_neg hp]
      by_cases ha : p.2.any Watcher.is_active
      · rw [show activeTargets (p :: rest) = p.1 :: activeTargets rest by
            simp [activeTargets, ha]]
        rw [← ih]
        simp [List.mem_cons, hp, Ne.symm hp]
      · rw [show activeTargets (p :: rest) = activeTargets rest by
            simp [activeTargets, ha]]
        exact ih

theorem activeTargets_nodup (reg : List (Nat × List Watcher))
    (hn : (keys reg).Nodup) : (activeTargets reg).Nodup := by
  induction reg with
  | nil => simp [activeTargets]
  | cons p rest ih =>
    have hnotin : p.1 ∉ keys rest := (List.nodup_cons.1 hn).1
    have hnd : (keys rest).Nodup := (List.nodup_cons.1 hn).2
    by_cases ha : p.2.any Watcher.is_active
    · rw [show activeTargets (p :: rest) = p.1 :: activeTargets rest by
          simp [activeTargets, ha]]
      refine List.nodup_cons.2 ⟨fun h => hnotin (mem_activeTargets_sub rest p.1 h), ih hnd⟩
    · rw [show activeTargets (p :: rest) = activeTargets rest by
          simp [activeTargets, ha]]
      exact ih hnd

/-! ### setup_and_start path lemmas -/

theorem setTarget_append (r1 r2 : List (Nat × List Watcher)) (t : Nat) (ws : List Watcher) :
    setTarget (r1 ++ r2) t ws = setTarget r1 t ws ++ setTarget r2 t ws := by
  simp [setTarget]

theorem updateFirst_ret_const (ap : Watcher → Bool) (ps : Watcher → Watcher × Bool)
    (b : Bool) (hb : ∀ w, (ps w).2 = b) :
    ∀ (ws l : List Watcher) (r : Bool), updateFirst ap ps ws = some (l, r) → r = b
  | [], l, r, h => by simp [updateFirst] at h
  | w :: ws, l, r, h => by
    by_cases hw : ap w = true
    · rw [show updateFirst ap ps (w :: ws) = some ((ps w).1 :: ws, (ps w).2) by
        simp [updateFirst, hw]] at h
      cases h
      exact hb w
    · cases hu : updateFirst ap ps ws with
      | none =>
        rw [show updateFirst ap ps (w :: ws) = none by simp [updateFirst, hw, hu]] at h
        cases h
      | some pr =>
        rw [show updateFirst ap ps (w :: ws) = some (w :: pr.1, pr.2) by
          simp [updateFirst, hw, hu]] at h
        cases h
        exact updateFirst_ret_const ap ps b hb ws pr.1 pr.2 (by rw [hu])

theorem setup_ret_const (d : Dispatcher) (t : Nat) (ap : Watcher → Bool) (fr : Watcher)
    (ps : Watcher → Watcher × Bool) (b : Bool) (hb : ∀ w, (ps w).2 = b) :
    (setup_and_start d t ap fr ps).2 = b := by
  unfold setup_and_start
  by_cases hf : (findTarget d.targets t).isSome
  · simp only [hf, if_true]
    cases hu : updateFirst ap ps (((findTarget d.targets t).getD []) : List Watcher) with
    | none => simp only [hu]; exact hb fr
    | some pr =>
      simp only [hu]
      exact updateFirst_ret_const ap ps b hb _ pr.1 pr.2 (by rw [hu])
  · simp only [hf, if_false, Bool.false_eq_true]
    cases hu : updateFirst ap ps
        (((findTarget (d.targets ++ [(t, [])]) t).getD []) : List Watcher) with
    | none => simp only [hu]; exact hb fr
    | some pr =>
      simp only [hu]
      exact updateFirst_ret_const ap ps b hb _ pr.1 pr.2 (by rw [hu])

theorem setup_hasTarget (d : Dispatcher) (t : Nat) (ap : Watcher → Bool) (fr : Watcher)
    (ps : Watcher → Watcher × Bool) :
    hasTarget (setup_and_start d t ap fr ps).1 t = true := by
  have h := (setup_spec d t ap fr ps).2.2.1
  rw [hasTarget, findTarget_isSome_iff, h]
  by_cases hf : (findTarget d.targets t).isSome
  · rw [if_pos hf]; exact (findTarget_isSome_iff _ _).1 hf
  · rw [if_neg hf]; simp

theorem setup_fresh (d : Dispatcher) (t : Nat) (ap : Watcher → Bool) (fr : Watcher)
    (ps : Watcher → Watcher × Bool) (hf : findTarget d.targets t = none) :
    (setup_and_start d t ap fr ps).1.targets = d.targets ++ [(t, [(ps fr).1])]
    ∧ (setup_and_start d t ap fr ps).2 = (ps fr).2 := by
  have hfsome : (findTarget d.targets t).isSome = false := by rw [hf]; rfl
  have hws : findTarget (d.targets ++ [(t, [])]) t = some [] := by
    rw [findTarget_append_of_none _ _ _ hf]
    show (if t = t then some ([] : List Watcher) else none) = some []
    rw [if_pos rfl]
  unfold setup_and_start
  rw [hfsome]
  simp only [Bool.false_eq_true, if_false, hws, Option.getD_some]
  rw [show updateFirst ap ps [] = none from rfl]
  simp only [List.nil_append]
  constructor
  · show setTarget (d.targets ++ [(t, [])]) t [(ps fr).1] = _
    rw [setTarget_append, setTarget_of_none _ _ _ hf]
    show d.targets ++ [if t = t then (t, [(ps fr).1]) else (t, [])] = _
    rw [if_pos rfl]
  · trivial

theorem setup_found (d : Dispatcher) (t : Nat) (ap : Watcher → Bool) (fr : Watcher)
    (ps : Watcher → Watcher × Bool) (ws : List Watcher)
    (hf : findTarget d.targets t = some ws) (l : List Watcher) (r : Bool)
    (hu : updateFirst ap ps ws = some (l, r)) :
    (setup_and_start d t ap fr ps).1.targets = setTarget d.targets t l
    ∧ (setup_and_start d t ap fr ps).2 = r := by
  have hfsome : (findTarget d.targets t).isSome = true := by rw [hf]; rfl
  unfold setup_and_start
  rw [hfsome]
  simp only [if_true, hf, Option.getD_some, hu]
  exact ⟨by trivial, by trivial⟩

theorem hasTarget_eq_of_keys_eq (d d2 : Dispatcher) (t : Nat)
    (hk : keys d2.targets = keys d.targets) : hasTarget d2 t = hasTarget d t := by
  have h1 := findTarget_isSome_iff d2.targets t
  have h2 := findTarget_isSome_iff d.targets t
  rw [hk] at h1
  unfold hasTarget
  cases hb : (findTarget d.targets t).isSome with
  | true => rw [h1.2 (h2.1 hb)]
  | false =>
    cases hb2 : (findTarget d2.targets t).isSome with
    | true => rw [hb.symm.trans (h2.2 (h1.1 hb2))]
    | false => rfl

/-! ### Full characterisation of the cleanup scan -/

theorem cleanup_expand (onEvent : Nat → Int → Bool) (d : Dispatcher) :
    cleanup onEvent d
      = { ((keys d.targets).foldl (fun s t => (release_watching s t).1)
            ((activeTargets d.targets).foldl
              (fun s t => handler onEvent s t Event.Cleanup)
              { d with m_cleaning := true }))
          with m_cleaning := false } := rfl

theorem cleanup_spec (onEvent : Nat → Int → Bool) (d : Dispatcher)
    (hn : (keys d.targets).Nodup) (hp : d.on_target_present = true) :
    (cleanup onEvent d).targets = []
    ∧ (cleanup onEvent d).trace
        = d.trace
          ++ (activeTargets d.targets).map (fun t => TraceEv.handlerCall t Event.Cleanup)
          ++ (keys d.targets).map TraceEv.freeCall
    ∧ (cleanup onEvent d).m_cleaning = false
    ∧ (cleanup onEvent d).on_target_present = true := by
  rw [cleanup_expand]
  have hh := foldl_handler_spec onEvent Event.Cleanup (activeTargets d.targets)
    { d with m_cleaning := true }
  have hkeys2 : keys ((activeTargets d.targets).foldl
      (fun s t => handler onEvent s t Event.Cleanup)
      { d with m_cleaning := true }).targets = keys d.targets := hh.2.2.2
  have hr := foldl_release_all (keys d.targets)
    ((activeTargets d.targets).foldl (fun s t => handler onEvent s t Event.Cleanup)
      { d with m_cleaning := true })
    hkeys2.symm (hh.2.1.trans hp) hn
  refine ⟨?_, ?_, rfl, ?_⟩
  · show ((keys d.targets).foldl (fun s t => (release_watching s t).1) _).targets = []
    exact hr.1
  · show ((keys d.targets).foldl (fun s t => (release_watching s t).1) _).trace = _
    rw [hr.2.1, hh.2.2.1]
  · show ((keys d.targets).foldl (fun s t => (release_watching s t).1) _).on_target_present = true
    exact hr.2.2.2

theorem cleanup_state (onEvent : Nat → Int → Bool) (d : Dispatcher) :
    (cleanup onEvent d).targets = [] ∧ (cleanup onEvent d).m_cleaning = false := by
  rw [cleanup_expand]
  refine ⟨?_, rfl⟩
  show ((keys d.targets).foldl (fun s t => (release_watching s t).1) _).targets = []
  apply foldl_release_targets
  intro p hp
  have hk := (foldl_handler_spec onEvent Event.Cleanup (activeTargets d.targets)
    { d with m_cleaning := true }).2.2.2
  have : p.1 ∈ keys ((activeTargets d.targets).foldl
      (fun s t => handler onEvent s t Event.Cleanup)
      { d with m_cleaning := true }).targets := List.mem_map_of_mem Prod.fst hp
  rw [hk] at this
  exact this

theorem cleanup_eq_of_nil (onEvent : Nat → Int → Bool) (d : Dispatcher)
    (h : d.targets = []) (hc : d.m_cleaning = false) : cleanup onEvent d = d := by
  obtain ⟨mc, tg, pr, tr⟩ := d
  change tg = [] at h
  change mc = false at hc
  subst h
  subst hc
  rfl

/-! ### The watch wrapper guard -/

theorem watch_timer_eq (d : Dispatcher) (t : Nat) (q : Rat) (hc : d.m_cleaning = false) :
    watch_timer d t q
      = setup_and_start d t approveTimer freshTimer (fun w => TimerWatcher.start w q q) := by
  show (if d.m_cleaning = true then (d, false) else _) = _
  rw [if_neg (by rw [hc]; simp)]

theorem watch_io_eq (d : Dispatcher) (t : Nat) (fd ev : Int) (hc : d.m_cleaning = false) :
    watch_io d t fd ev
      = setup_and_start d t (approveIo fd) freshIo (fun w => IoWatcher.start w fd ev) := by
  show (if d.m_cleaning = true then (d, false) else _) = _
  rw [if_neg (by rw [hc]; simp)]

theorem watch_signal_eq (d : Dispatcher) (t : Nat) (sg : Int) (hc : d.m_cleaning = false) :
    watch_signal d t sg
      = setup_and_start d t (approveSignal sg) freshSignal
          (fun w => SignalWatcher.start w sg) := by
  show (if d.m_cleaning = true then (d, false) else _) = _
  rw [if_neg (by rw [hc]; simp)]

/-! ### Claim theorems -/

/-- Claim C9: `TimerWatcher::start(after, repeat)` — a negative `after`
    is normalised to -1 and the watcher is not armed (it ends inactive
    and `start` returns false); a negative `repeat` is normalised to 0;
    for `after ≥ 0` the watcher is armed and `start` returns true. -/
theorem C9_timer_start_normalisation (w : Watcher) (after rpt : Rat) :
    ((TimerWatcher.start w after rpt).1.timerAfter = if after < 0 then -1 else after)
    ∧ ((TimerWatcher.start w after rpt).1.timerRepeat = if rpt < 0 then 0 else rpt)
    ∧ (after < 0 → (TimerWatcher.start w after rpt).1.is_active = false
        ∧ (TimerWatcher.start w after rpt).2 = false)
    ∧ (0 ≤ after → (TimerWatcher.start w after rpt).1.is_active = true
        ∧ (TimerWatcher.start w after rpt).2 = true) := by
  refine ⟨rfl, rfl, ?_, ?_⟩
  · intro h
    have h2 : decide ((0:Rat) ≤ if after < 0 then (-1:Rat) else after) = false := by
      rw [if_pos h]; decide
    exact ⟨h2, h2⟩
  · intro h
    have h2 : decide ((0:Rat) ≤ if after < 0 then (-1:Rat) else after) = true := by
      rw [if_neg (not_lt.2 h)]; exact decide_eq_true h
    exact ⟨h2, h2⟩

/-- Witness for C9 at concrete inputs: `start(-1, -2)` stores
    `after = -1`, `repeat = 0` and fails; `start(3, -2)` succeeds. -/
theorem C9_timer_start_normalisation_witness :
    ((TimerWatcher.start freshTimer (-1) (-2)).1.timerAfter = -1)
    ∧ ((TimerWatcher.start freshTimer (-1) (-2)).1.timerRepeat = 0)
    ∧ ((TimerWatcher.start freshTimer (-1) (-2)).2 = false)
    ∧ ((TimerWatcher.start freshTimer 3 (-2)).2 = true) := by
  have h1 := C9_timer_start_normalisation freshTimer (-1) (-2)
  have h2 := C9_timer_start_normalisation freshTimer 3 (-2)
  refine ⟨?_, ?_, (h1.2.2.1 (by norm_num)).2, (h2.2.2.2 (by norm_num)).2⟩
  · rw [h1.1]; norm_num
  · rw [h1.2.1]; norm_num

/-- Claim C8: `release_watching` is idempotent — after it runs the
    target is absent from the registry, and a second call returns false
    and changes nothing (in particular it fires no `on_free`). -/
theorem C8_release_idempotent (d : Dispatcher) (t : Nat) :
    hasTarget (release_watching d t).1 t = false
    ∧ release_watching (release_watching d t).1 t = ((release_watching d t).1, false) := by
  have h1 : findTarget (release_watching d t).1.targets t = none := by
    rw [release_targets]
    exact findTarget_eraseTarget_self d.targets t
  constructor
  · simp [hasTarget, h1]
  · exact release_of_none _ t h1

/-- Claim C10: `cleanup` leaves the registry empty with `m_cleaning`
    clear, and an immediately following `cleanup` (e.g. the one the
    destructor performs) is a complete no-op: no handler call, no
    `on_free` call, state unchanged. -/
theorem C10_cleanup_idempotent (onEvent : Nat → Int → Bool) (d : Dispatcher) :
    (cleanup onEvent d).targets = []
    ∧ (cleanup onEvent d).m_cleaning = false
    ∧ cleanup onEvent (cleanup onEvent d) = cleanup onEvent d := by
  obtain ⟨h1, h2⟩ := cleanup_state onEvent d
  exact ⟨h1, h2, cleanup_eq_of_nil onEvent _ h1 h2⟩

/-- Claim C6: during the cleanup scan (`m_cleaning` set) the handler
    return value cannot re-arm anything — after the delivery path runs,
    all of the target's watchers are inactive whatever the handler
    returned, because `enable_watching` no-ops while cleaning. -/
theorem C6_cleanup_ignores_rearm (onEvent : Nat → Int → Bool) (d : Dispatcher)
    (t : Nat) (rev : Int) (h : d.m_cleaning = true) :
    allStopped (handler onEvent d t rev) t = true := by
  have hstopped : allStopped (disable_watching d t).1 t = true := by
    cases hf : findTarget d.targets t with
    | none => simp [disable_watching, hf, allStopped]
    | some ws =>
      have hset : findTarget (setTarget d.targets t (ws.map Watcher.stop)) t
          = some (ws.map Watcher.stop) := findTarget_setTarget_self d.targets t _ ws hf
      simp [disable_watching, hf, allStopped, hset, all_not_active_map_stop,
        is_active_stop]
  have hd1c : (disable_watching d t).1.m_cleaning = true := by
    rw [(disable_spec d t).1]; exact h
  unfold handler
  have hen : (enable_watching
      { (disable_watching d t).1 with
        trace := (disable_watching d t).1.trace ++ [TraceEv.handlerCall t rev] } t).1
      = { (disable_watching d t).1 with
          trace := (disable_watching d t).1.trace ++ [TraceEv.handlerCall t rev] } := by
    simp [enable_watching, hd1c]
  by_cases he : onEvent t rev = true
  · rw [if_pos he, hen]; exact hstopped
  · rw [if_neg he]; exact hstopped

/-- Witness for C6: a handler returning true during cleanup still
    leaves every watcher of the target stopped. -/
theorem C6_cleanup_ignores_rearm_witness :
    allStopped (handler onTrue exCleaning 0 Event.Cleanup) 0 = true :=
  C6_cleanup_ignores_rearm onTrue exCleaning 0 Event.Cleanup rfl

/-- Claim C3 counterexample: in a cleaning state (`m_cleaning = true`)
    with target 0 registered, `release_watching` and `disable_watching`
    return true and mutate state — they are not guarded by `m_cleaning`,
    contradicting the claim that every mutating operation fails. -/
theorem C3_counterexample :
    (release_watching exCleaning 0).2 = true
    ∧ (disable_watching exCleaning 0).2 = true
    ∧ (release_watching exCleaning 0).1.targets ≠ exCleaning.targets := by
  decide

/-- Claim C3 as amended: while `m_cleaning` is set, the guarded
    operations — `watch_timer`, `watch_io`, `watch_signal`,
    `enable_watching` — fail (return false, no-op); `disable_watching`
    and `release_watching` are not guarded and operate normally (the
    cleanup scan itself relies on them). -/
theorem C3_guarded_ops_noop (d : Dispatcher) (h : d.m_cleaning = true)
    (t : Nat) (q : Rat) (fd ev sg : Int) :
    watch_timer d t q = (d, false)
    ∧ watch_io d t fd ev = (d, false)
    ∧ watch_signal d t sg = (d, false)
    ∧ enable_watching d t = (d, false) := by
  refine ⟨?_, ?_, ?_, ?_⟩ <;>
    simp [watch_timer, watch_io, watch_signal, enable_watching, h]

/-- Witness for C3's amended statement at a concrete cleaning state. -/
theorem C3_guarded_ops_noop_witness :
    watch_timer exCleaning 1 1 = (exCleaning, false)
    ∧ watch_io exCleaning 1 3 1 = (exCleaning, false)
    ∧ watch_signal exCleaning 1 9 = (exCleaning, false)
    ∧ enable_watching exCleaning 0 = (exCleaning, false) :=
  C3_guarded_ops_noop exCleaning rfl 1 1 3 1 9

/-- Claim C4 counterexample: `watch_timer` with a negative timeout
    returns false (the arm attempt failed) yet the registry has changed —
    the target entry and an inactive timer watcher were added,
    contradicting "the watcher is not added to the registry". -/
theorem C4_counterexample :
    (watch_timer initPlain 0 (-1)).2 = false
    ∧ (watch_timer initPlain 0 (-1)).1.targets ≠ initPlain.targets := by
  decide

/-- Claim C4 as amended: outside cleanup, a `watch_*` call whose arm
    attempt fails — negative timeout for `watch_timer`; negative fd or
    non-positive event mask for `watch_io`; negative signum for
    `watch_signal` — returns false but the target stays (or becomes)
    registered; on a previously unknown target the registry gains
    exactly one inactive watcher of the requested kind holding the
    normalised parameters. -/
theorem C4_failed_watch_stays_registered (d : Dispatcher) (t : Nat) (q : Rat)
    (fd ev sg : Int) (hc : d.m_cleaning = false) :
    (q < 0 →
      (watch_timer d t q).2 = false
      ∧ hasTarget (watch_timer d t q).1 t = true
      ∧ (findTarget d.targets t = none →
          findTarget (watch_timer d t q).1.targets t
            = some [Watcher.timer (-1) 0 false]))
    ∧ (fd < 0 ∨ ev ≤ 0 →
      (watch_io d t fd ev).2 = false
      ∧ hasTarget (watch_io d t fd ev).1 t = true
      ∧ (findTarget d.targets t = none →
          findTarget (watch_io d t fd ev).1.targets t
            = some [Watcher.io (if fd < 0 then -1 else fd)
                (if ev < 0 then 0 else ev) false]))
    ∧ (sg < 0 →
      (watch_signal d t sg).2 = false
      ∧ hasTarget (watch_signal d t sg).1 t = true
      ∧ (findTarget d.targets t = none →
          findTarget (watch_signal d t sg).1.targets t
            = some [Watcher.sig (-1) false])) := by
  refine ⟨?_, ?_, ?_⟩
  · intro hq
    have hwt := watch_timer_eq d t q hc
    have hps : ∀ w, TimerWatcher.start w q q = (Watcher.timer (-1) 0 false, false) := by
      intro w
      unfold TimerWatcher.start
      rw [if_pos hq, if_pos hq]
      norm_num
    refine ⟨?_, ?_, ?_⟩
    · rw [hwt]
      exact setup_ret_const d t _ _ _ false (fun w => by rw [hps w])
    · rw [hwt]
      exact setup_hasTarget d t _ _ _
    · intro hf
      rw [hwt]
      have hfr := setup_fresh d t approveTimer freshTimer
        (fun w => TimerWatcher.start w q q) hf
      rw [hfr.1]
      simp only [hps]
      rw [findTarget_append_of_none _ _ _ hf]
      show (if t = t then some [Watcher.timer (-1) 0 false] else none) = _
      rw [if_pos rfl]
  · intro hio
    have hwt := watch_io_eq d t fd ev hc
    have harm : (decide ((0:Int) ≤ if fd < 0 then (-1:Int) else fd)
        && decide ((0:Int) < if ev < 0 then (0:Int) else ev)) = false := by
      rcases hio with hfd | hev
      · rw [if_pos hfd]
        simp
      · have h1 : ¬ ((0:Int) < if ev < 0 then (0:Int) else ev) := by
          by_cases h2 : ev < 0
          · rw [if_pos h2]
            norm_num
          · rw [if_neg h2]
            exact not_lt.2 hev
        rw [decide_eq_false h1, Bool.and_false]
    have hps : ∀ w, IoWatcher.start w fd ev
        = (Watcher.io (if fd < 0 then -1 else fd) (if ev < 0 then 0 else ev) false,
           false) := by
      intro w
      show (Watcher.io (if fd < 0 then (-1:Int) else fd) (if ev < 0 then (0:Int) else ev)
          (decide ((0:Int) ≤ if fd < 0 then (-1:Int) else fd)
            && decide ((0:Int) < if ev < 0 then (0:Int) else ev)),
        decide ((0:Int) ≤ if fd < 0 then (-1:Int) else fd)
          && decide ((0:Int) < if ev < 0 then (0:Int) else ev)) = _
      rw [harm]
    refine ⟨?_, ?_, ?_⟩
    · rw [hwt]
      exact setup_ret_const d t _ _ _ false (fun w => by rw [hps w])
    · rw [hwt]
      exact setup_hasTarget d t _ _ _
    · intro hf
      rw [hwt]
      have hfr := setup_fresh d t (approveIo fd) freshIo
        (fun w => IoWatcher.start w fd ev) hf
      rw [hfr.1]
      simp only [hps]
      rw [findTarget_append_of_none _ _ _ hf]
      show (if t = t
          then some [Watcher.io (if fd < 0 then -1 else fd)
            (if ev < 0 then 0 else ev) false]
          else none) = _
      rw [if_pos rfl]
  · intro hs
    have hwt := watch_signal_eq d t sg hc
    have hps : ∀ w, SignalWatcher.start w sg = (Watcher.sig (-1) false, false) := by
      intro w
      unfold SignalWatcher.start
      rw [if_pos hs]
      norm_num
    refine ⟨?_, ?_, ?_⟩
    · rw [hwt]
      exact setup_ret_const d t _ _ _ false (fun w => by rw [hps w])
    · rw [hwt]
      exact setup_hasTarget d t _ _ _
    · intro hf
      rw [hwt]
      have hfr := setup_fresh d t (approveSignal sg) freshSignal
        (fun w => SignalWatcher.start w sg) hf
      rw [hfr.1]
      simp only [hps]
      rw [findTarget_append_of_none _ _ _ hf]
      show (if t = t then some [Watcher.sig (-1) false] else none) = _
      rw [if_pos rfl]

/-- Witness for C4's amended statement: a failed `watch_timer`,
    `watch_io` (zero event mask) and `watch_signal` each register the
    target with one inactive watcher on a fresh dispatcher. -/
theorem C4_failed_watch_stays_registered_witness :
    ((watch_timer initPlain 0 (-1)).2 = false
      ∧ hasTarget (watch_timer initPlain 0 (-1)).1 0 = true
      ∧ findTarget (watch_timer initPlain 0 (-1)).1.targets 0
          = some [Watcher.timer (-1) 0 false])
    ∧ ((watch_io initPlain 0 3 0).2 = false
      ∧ hasTarget (watch_io initPlain 0 3 0).1 0 = true
      ∧ findTarget (watch_io initPlain 0 3 0).1.targets 0
          = some [Watcher.io 3 0 false])
    ∧ ((watch_signal initPlain 0 (-7)).2 = false
      ∧ hasTarget (watch_signal initPlain 0 (-7)).1 0 = true
      ∧ findTarget (watch_signal initPlain 0 (-7)).1.targets 0
          = some [Watcher.sig (-1) false]) := by
  have h1 := C4_failed_watch_stays_registered initPlain 0 (-1) 3 0 (-7) rfl
  refine ⟨?_, ?_, ?_⟩
  · have h := h1.1 (by norm_num)
    exact ⟨h.1, h.2.1, h.2.2 rfl⟩
  · have h := h1.2.1 (Or.inr (by norm_num))
    refine ⟨h.1, h.2.1, ?_⟩
    have h2 := h.2.2 rfl
    simpa using h2
  · have h := h1.2.2 (by norm_num)
    exact ⟨h.1, h.2.1, h.2.2 rfl⟩

/-! ### Delivery-path equations -/

theorem handler_eq (onEvent : Nat → Int → Bool) (d : Dispatcher) (t : Nat) (rev : Int)
    (ws : List Watcher) (hf : findTarget d.targets t = some ws) :
    handler onEvent d t rev
      = (if onEvent t rev
         then (enable_watching
            { d with targets := setTarget d.targets t (ws.map Watcher.stop),
                     trace := d.trace ++ [TraceEv.handlerCall t rev] } t).1
         else { d with targets := setTarget d.targets t (ws.map Watcher.stop),
                       trace := d.trace ++ [TraceEv.handlerCall t rev] }) := by
  unfold handler disable_watching
  rw [hf]

theorem enable_eq (d : Dispatcher) (t : Nat) (ws : List Watcher)
    (hc : d.m_cleaning = false) (hf : findTarget d.targets t = some ws) :
    enable_watching d t
      = ({ d with targets := (setTarget d.targets t
            (ws.map fun w => if w.is_active then w else (Watcher.start w).1)) }, true) := by
  simp [enable_watching, hc, hf]

/-- Claim C1: when an event is delivered to target `t`, the dispatcher
    first stops ALL of `t`'s watchers (the state in which the user
    handler runs is the `disable_watching` result, where every watcher
    of `t` is inactive); if the handler returns true every watcher of
    `t` is re-armed, and if it returns false they all remain stopped
    while `t` stays registered. -/
theorem C1_delivery_stop_all (onEvent : Nat → Int → Bool) (d : Dispatcher)
    (t : Nat) (rev : Int) (hp : hasTarget d t = true) (hc : d.m_cleaning = false) :
    allStopped (disable_watching d t).1 t = true
    ∧ (onEvent t rev = true →
        hasTarget (handler onEvent d t rev) t = true
        ∧ allActive (handler onEvent d t rev) t = true)
    ∧ (onEvent t rev = false →
        hasTarget (handler onEvent d t rev) t = true
        ∧ allStopped (handler onEvent d t rev) t = true) := by
  obtain ⟨ws, hf⟩ := Option.isSome_iff_exists.1 hp
  have hdis : disable_watching d t
      = ({ d with targets := setTarget d.targets t (ws.map Watcher.stop) }, true) := by
    unfold disable_watching
    rw [hf]
  have hfind1 : findTarget (setTarget d.targets t (ws.map Watcher.stop)) t
      = some (ws.map Watcher.stop) := findTarget_setTarget_self d.targets t _ ws hf
  have hstop1 : allStopped (disable_watching d t).1 t = true := by
    rw [hdis]
    simp [allStopped, hfind1, is_active_stop]
  refine ⟨hstop1, ?_, ?_⟩
  · intro he
    have hh := handler_eq onEvent d t rev ws hf
    rw [if_pos he] at hh
    have hen := enable_eq
      ({ d with targets := setTarget d.targets t (ws.map Watcher.stop),
                trace := d.trace ++ [TraceEv.handlerCall t rev] } : Dispatcher) t
      (ws.map Watcher.stop) hc hfind1
    rw [hen] at hh
    have hfind2 : findTarget (handler onEvent d t rev).targets t
        = some ((ws.map Watcher.stop).map
            fun w => if w.is_active then w else (Watcher.start w).1) := by
      rw [hh]
      exact findTarget_setTarget_self _ t _ _ hfind1
    constructor
    · rw [hasTarget, hfind2]; rfl
    · rw [allStopped.eq_def] at *
      rw [allActive, hfind2]
      exact all_active_map_arm (ws.map Watcher.stop)
  · intro he
    have hh := handler_eq onEvent d t rev ws hf
    rw [he] at hh
    simp only [Bool.false_eq_true, if_false] at hh
    have hfind2 : findTarget (handler onEvent d t rev).targets t
        = some (ws.map Watcher.stop) := by
      rw [hh]
      exact hfind1
    constructor
    · rw [hasTarget, hfind2]; rfl
    · rw [allStopped, hfind2]
      simp [is_active_stop]

/-- Witness for C1: concrete delivery to a target with two armed
    watchers, handler returning true. -/
theorem C1_delivery_stop_all_witness :
    allStopped (disable_watching exDelivery 0).1 0 = true
    ∧ hasTarget (handler onTrue exDelivery 0 Event.Timer) 0 = true
    ∧ allActive (handler onTrue exDelivery 0 Event.Timer) 0 = true := by
  have h := C1_delivery_stop_all onTrue exDelivery 0 Event.Timer (by decide) rfl
  exact ⟨h.1, (h.2.1 rfl).1, (h.2.1 rfl).2⟩

/-! ### Watcher reuse -/

theorem watch_pair_generic (d : Dispatcher) (t : Nat)
    (hfresh : findTarget d.targets t = none)
    (ap : Watcher → Bool) (fr : Watcher) (ps1 ps2 : Watcher → Watcher × Bool)
    (w1 w2 : Watcher) (hw1 : (ps1 fr).1 = w1) (happ : ap w1 = true)
    (hw2 : ps2 w1 = (w2, true)) :
    findTarget (setup_and_start (setup_and_start d t ap fr ps1).1 t ap fr ps2).1.targets t
      = some [w2]
    ∧ (setup_and_start (setup_and_start d t ap fr ps1).1 t ap fr ps2).2 = true := by
  have h1 := setup_fresh d t ap fr ps1 hfresh
  have hf2 : findTarget (setup_and_start d t ap fr ps1).1.targets t = some [w1] := by
    rw [h1.1, hw1, findTarget_append_of_none _ _ _ hfresh]
    show (if t = t then some [w1] else none) = some [w1]
    rw [if_pos rfl]
  have hu : updateFirst ap ps2 [w1] = some ([(ps2 w1).1], (ps2 w1).2) := by
    unfold updateFirst
    rw [if_pos happ]
  have h2 := setup_found (setup_and_start d t ap fr ps1).1 t ap fr ps2 [w1] hf2 _ _ hu
  constructor
  · rw [h2.1, findTarget_setTarget_self _ t _ [w1] hf2, hw2]
  · rw [h2.2, hw2]

/-- Claim C5: watcher reuse — starting from a state where target `t` is
    unregistered, two `watch_timer` calls leave exactly one timer
    watcher for `t` parameterised `after = repeat = b`; two `watch_io`
    calls with the same fd leave exactly one I/O watcher for that fd;
    two `watch_signal` calls with the same signum leave exactly one
    signal watcher for it (the second call reuses — and reparameterises —
    the watcher installed by the first instead of appending another). -/
theorem C5_watcher_reuse (d : Dispatcher) (t : Nat) (hc : d.m_cleaning = false)
    (hfresh : findTarget d.targets t = none)
    (a b : Rat) (hb : 0 ≤ b) (fd e sg : Int) (hfd : 0 ≤ fd) (he : 0 < e) (hs : 0 ≤ sg) :
    (findTarget (watch_timer (watch_timer d t a).1 t b).1.targets t
        = some [Watcher.timer b b true]
      ∧ (watch_timer (watch_timer d t a).1 t b).2 = true)
    ∧ (findTarget (watch_io (watch_io d t fd e).1 t fd e).1.targets t
        = some [Watcher.io fd e true]
      ∧ (watch_io (watch_io d t fd e).1 t fd e).2 = true)
    ∧ (findTarget (watch_signal (watch_signal d t sg).1 t sg).1.targets t
        = some [Watcher.sig sg true]
      ∧ (watch_signal (watch_signal d t sg).1 t sg).2 = true) := by
  have htimer2 : ∀ w, TimerWatcher.start w b b = (Watcher.timer b b true, true) := by
    intro w
    simp [TimerWatcher.start, not_lt.2 hb, hb]
  have hio2 : ∀ w, IoWatcher.start w fd e = (Watcher.io fd e true, true) := by
    intro w
    simp [IoWatcher.start, not_lt.2 hfd, not_lt.2 (le_of_lt he), hfd, he]
  have hsig2 : ∀ w, SignalWatcher.start w sg = (Watcher.sig sg true, true) := by
    intro w
    simp [SignalWatcher.start, not_lt.2 hs, hs]
  refine ⟨?_, ?_, ?_⟩
  · have e1 := watch_timer_eq d t a hc
    have hcl1 : (watch_timer d t a).1.m_cleaning = false := by
      rw [e1, (setup_spec d t approveTimer freshTimer
        (fun w => TimerWatcher.start w a a)).1]
      exact hc
    have e2 := watch_timer_eq (watch_timer d t a).1 t b hcl1
    rw [e2, e1]
    exact watch_pair_generic d t hfresh approveTimer freshTimer _ _
      ((TimerWatcher.start freshTimer a a).1) (Watcher.timer b b true)
      rfl rfl (htimer2 _)
  · have e1 := watch_io_eq d t fd e hc
    have hcl1 : (watch_io d t fd e).1.m_cleaning = false := by
      rw [e1, (setup_spec d t (approveIo fd) freshIo
        (fun w => IoWatcher.start w fd e)).1]
      exact hc
    have e2 := watch_io_eq (watch_io d t fd e).1 t fd e hcl1
    rw [e2, e1]
    exact watch_pair_generic d t hfresh (approveIo fd) freshIo _ _
      (Watcher.io fd e true) (Watcher.io fd e true)
      (by rw [hio2 freshIo])
      (by simp [approveIo]) (hio2 _)
  · have e1 := watch_signal_eq d t sg hc
    have hcl1 : (watch_signal d t sg).1.m_cleaning = false := by
      rw [e1, (setup_spec d t (approveSignal sg) freshSignal
        (fun w => SignalWatcher.start w sg)).1]
      exact hc
    have e2 := watch_signal_eq (watch_signal d t sg).1 t sg hcl1
    rw [e2, e1]
    exact watch_pair_generic d t hfresh (approveSignal sg) freshSignal _ _
      (Watcher.sig sg true) (Watcher.sig sg true)
      (by rw [hsig2 freshSignal])
      (by simp [approveSignal]) (hsig2 _)

/-- Witness for C5 at concrete inputs on a fresh dispatcher. -/
theorem C5_watcher_reuse_witness :
    (findTarget (watch_timer (watch_timer initPlain 0 1).1 0 2).1.targets 0
        = some [Watcher.timer 2 2 true]
      ∧ (watch_timer (watch_timer initPlain 0 1).1 0 2).2 = true)
    ∧ (findTarget (watch_io (watch_io initPlain 0 3 1).1 0 3 1).1.targets 0
        = some [Watcher.io 3 1 true]
      ∧ (watch_io (watch_io initPlain 0 3 1).1 0 3 1).2 = true)
    ∧ (findTarget (watch_signal (watch_signal initPlain 0 9).1 0 9).1.targets 0
        = some [Watcher.sig 9 true]
      ∧ (watch_signal (watch_signal initPlain 0 9).1 0 9).2 = true) :=
  C5_watcher_reuse initPlain 0 rfl rfl 1 2 (by norm_num) 3 1 9
    (by norm_num) (by norm_num) (by norm_num)

/-- Claim C2: `cleanup()` invokes the user handler with
    `revents = Cleanup` exactly once per target that had at least one
    active watcher at cleanup entry and zero times per target whose
    watchers were all inactive (or which was unregistered); every
    registered target receives exactly one `on_free` call; and the
    registry is left empty. -/
theorem C2_cleanup_protocol (onEvent : Nat → Int → Bool) (d : Dispatcher)
    (hn : (keys d.targets).Nodup) (hp : d.on_target_present = true) :
    (cleanup onEvent d).targets = []
    ∧ (∀ t, countCleanupCalls (cleanup onEvent d).trace t
        = countCleanupCalls d.trace t + (if anyActiveAt d t = true then 1 else 0))
    ∧ (∀ t, countFree (cleanup onEvent d).trace t
        = countFree d.trace t + (if hasTarget d t = true then 1 else 0)) := by
  obtain ⟨h1, h2, h3, h4⟩ := cleanup_spec onEvent d hn hp
  refine ⟨h1, ?_, ?_⟩
  · intro t
    rw [countCleanupCalls, h2, countEv_append, countEv_append]
    rw [countEv_map_eq_zero TraceEv.freeCall (TraceEv.handlerCall t Event.Cleanup)
      (fun x hx => TraceEv.noConfusion hx) (keys d.targets)]
    have hmap : countEv ((activeTargets d.targets).map
          (fun x => TraceEv.handlerCall x Event.Cleanup))
        (TraceEv.handlerCall t Event.Cleanup)
        = if t ∈ activeTargets d.targets then 1 else 0 :=
      countEv_map_nodup _
        (fun a b hab => by simpa using hab)
        _ (activeTargets_nodup _ hn) t
    rw [hmap, Nat.add_zero]
    have hiff := mem_activeTargets_iff d.targets hn t
    show countEv d.trace _ + _ = countEv d.trace _ + _
    congr 1
    by_cases hm : anyActiveAt d t = true
    · rw [if_pos hm, if_pos (hiff.2 hm)]
    · rw [if_neg hm, if_neg (fun hmem => hm (hiff.1 hmem))]
  · intro t
    rw [countFree, h2, countEv_append, countEv_append]
    rw [countEv_map_eq_zero (fun x => TraceEv.handlerCall x Event.Cleanup)
      (TraceEv.freeCall t) (fun x hx => TraceEv.noConfusion hx) (activeTargets d.targets)]
    have hmap : countEv ((keys d.targets).map TraceEv.freeCall) (TraceEv.freeCall t)
        = if t ∈ keys d.targets then 1 else 0 :=
      countEv_map_nodup TraceEv.freeCall
        (fun a b hab => by simpa using hab)
        _ hn t
    rw [hmap, Nat.add_zero]
    show countEv d.trace _ + _ = countEv d.trace _ + _
    congr 1
    by_cases hm : hasTarget d t = true
    · rw [if_pos hm, if_pos ((findTarget_isSome_iff _ _).1 hm)]
    · rw [if_neg hm, if_neg (fun hmem => hm ((findTarget_isSome_iff _ _).2 hmem))]

/-- Witness for C2: a two-target dispatcher, one target active and one
    inactive-only. -/
theorem C2_cleanup_protocol_witness :
    (cleanup onTrue exTwoTargets).targets = []
    ∧ countCleanupCalls (cleanup onTrue exTwoTargets).trace 0
        = countCleanupCalls exTwoTargets.trace 0
          + (if anyActiveAt exTwoTargets 0 = true then 1 else 0)
    ∧ countCleanupCalls (cleanup onTrue exTwoTargets).trace 1
        = countCleanupCalls exTwoTargets.trace 1
          + (if anyActiveAt exTwoTargets 1 = true then 1 else 0)
    ∧ countFree (cleanup onTrue exTwoTargets).trace 1
        = countFree exTwoTargets.trace 1
          + (if hasTarget exTwoTargets 1 = true then 1 else 0) := by
  have h := C2_cleanup_protocol onTrue exTwoTargets (by decide) rfl
  exact ⟨h.1, h.2.1 0, h.2.1 1, h.2.2 1⟩

/-! ### Hook pairing invariant -/

theorem hasTarget_iff_mem (d : Dispatcher) (t : Nat) :
    hasTarget d t = true ↔ t ∈ keys d.targets := findTarget_isSome_iff d.targets t

theorem hasTarget_bool_eq (d d2 : Dispatcher) (t : Nat)
    (hiff : t ∈ keys d2.targets ↔ t ∈ keys d.targets) :
    hasTarget d2 t = hasTarget d t := by
  cases hq : hasTarget d t with
  | true => exact (hasTarget_iff_mem d2 t).2 (hiff.2 ((hasTarget_iff_mem d t).1 hq))
  | false =>
    cases hq2 : hasTarget d2 t with
    | false => rfl
    | true =>
      exact absurd ((hasTarget_iff_mem d t).2 (hiff.1 ((hasTarget_iff_mem d2 t).1 hq2)))
        (by rw [hq]; simp)

theorem hookInv_init : hookInv initHooked := by
  refine ⟨by simp [keys, initHooked], rfl, ?_⟩
  intro t
  simp [countApply, countFree, countEv, hasTarget, initHooked, findTarget]

theorem hookInv_watch (d : Dispatcher) (t2 : Nat) (ap : Watcher → Bool) (fr : Watcher)
    (ps : Watcher → Watcher × Bool) (h : hookInv d) :
    hookInv (setup_and_start d t2 ap fr ps).1 := by
  obtain ⟨hn, hp, hb⟩ := h
  obtain ⟨s1, s2, s3, s4⟩ := setup_spec d t2 ap fr ps
  by_cases hf : (findTarget d.targets t2).isSome
  · rw [if_pos hf] at s3 s4
    refine ⟨by rw [s3]; exact hn, by rw [s2]; exact hp, ?_⟩
    intro t
    rw [countApply, countFree, s4,
      hasTarget_eq_of_keys_eq d (setup_and_start d t2 ap fr ps).1 t s3]
    exact hb t
  · rw [if_neg hf] at s3 s4
    rw [hp, if_pos rfl] at s4
    have hnotin : t2 ∉ keys d.targets := fun hm => hf ((findTarget_isSome_iff _ _).2 hm)
    refine ⟨?_, by rw [s2]; exact hp, ?_⟩
    · rw [s3, List.nodup_append]
      refine ⟨hn, List.nodup_singleton _, ?_⟩
      intro a ha hmem
      rw [List.mem_singleton] at hmem
      subst hmem
      exact hnotin ha
    · intro t
      have hca : countApply (setup_and_start d t2 ap fr ps).1.trace t
          = countApply d.trace t + (if t2 = t then 1 else 0) := by
        rw [countApply, s4, countEv_append, countEv_singleton]
        congr 1
        by_cases ht : t2 = t
        · rw [if_pos ht, if_pos (by rw [ht])]
        · rw [if_neg ht, if_neg (fun hh => ht (by injection hh))]
      have hcf : countFree (setup_and_start d t2 ap fr ps).1.trace t
          = countFree d.trace t := by
        rw [countFree, s4, countEv_append, countEv_singleton,
          if_neg (fun hh => TraceEv.noConfusion hh), Nat.add_zero]
        rfl
      rw [hca, hcf]
      by_cases ht : t2 = t
      · subst ht
        have hft : hasTarget d t2 = false := Bool.eq_false_iff.2 hf
        have hb2 := hb t2
        rw [hft, if_neg Bool.false_ne_true, Nat.add_zero] at hb2
        have hft2 : hasTarget (setup_and_start d t2 ap fr ps).1 t2 = true :=
          setup_hasTarget d t2 ap fr ps
        rw [if_pos rfl, hft2, if_pos rfl, hb2]
      · have hiff : t ∈ keys (setup_and_start d t2 ap fr ps).1.targets
            ↔ t ∈ keys d.targets := by
          rw [s3, List.mem_append, List.mem_singleton]
          constructor
          · rintro (hm | hm)
            · exact hm
            · exact absurd hm.symm ht
          · exact Or.inl
        rw [if_neg ht, Nat.add_zero,
          hasTarget_bool_eq d (setup_and_start d t2 ap fr ps).1 t hiff]
        exact hb t

theorem hookInv_enable (d : Dispatcher) (t2 : Nat) (h : hookInv d) :
    hookInv (enable_watching d t2).1 := by
  obtain ⟨hn, hp, hb⟩ := h
  obtain ⟨e1, e2, e3, e4⟩ := enable_spec d t2
  refine ⟨by rw [e4]; exact hn, e2.trans hp, ?_⟩
  intro t
  rw [countApply, countFree, e3, hasTarget_eq_of_keys_eq d (enable_watching d t2).1 t e4]
  exact hb t

theorem hookInv_disable (d : Dispatcher) (t2 : Nat) (h : hookInv d) :
    hookInv (disable_watching d t2).1 := by
  obtain ⟨hn, hp, hb⟩ := h
  obtain ⟨e1, e2, e3, e4⟩ := disable_spec d t2
  refine ⟨by rw [e4]; exact hn, e2.trans hp, ?_⟩
  intro t
  rw [countApply, countFree, e3, hasTarget_eq_of_keys_eq d (disable_watching d t2).1 t e4]
  exact hb t

theorem hookInv_release (d : Dispatcher) (t2 : Nat) (h : hookInv d) :
    hookInv (release_watching d t2).1 := by
  obtain ⟨hn, hp, hb⟩ := h
  cases hf : findTarget d.targets t2 with
  | none => rw [release_of_none d t2 hf]; exact ⟨hn, hp, hb⟩
  | some ws =>
    have htg := release_targets d t2
    have htr := release_trace_found d t2 ws hf hp
    have hsp := release_spec d t2
    refine ⟨?_, hsp.2.trans hp, ?_⟩
    · rw [htg]
      exact (keys_eraseTarget_sublist d.targets t2).nodup hn
    · intro t
      have hcf : countFree (release_watching d t2).1.trace t
          = countFree d.trace t + (if t2 = t then 1 else 0) := by
        rw [countFree, htr, countEv_append, countEv_singleton]
        congr 1
        by_cases ht : t2 = t
        · rw [if_pos ht, if_pos (by rw [ht])]
        · rw [if_neg ht, if_neg (fun hh => ht (by injection hh))]
      have hca : countApply (release_watching d t2).1.trace t
          = countApply d.trace t := by
        rw [countApply, htr, countEv_append, countEv_singleton,
          if_neg (fun hh => TraceEv.noConfusion hh), Nat.add_zero]
        rfl
      rw [hca, hcf]
      by_cases ht : t2 = t
      · subst ht
        have hft2 : hasTarget (release_watching d t2).1 t2 = false := by
          rw [hasTarget, htg, findTarget_eraseTarget_self]
          rfl
        have hft : hasTarget d t2 = true := by rw [hasTarget, hf]; rfl
        have hb2 := hb t2
        rw [hft, if_pos rfl] at hb2
        rw [if_pos rfl, hft2, if_neg Bool.false_ne_true, Nat.add_zero, hb2]
      · have hht : hasTarget (release_watching d t2).1 t = hasTarget d t := by
          rw [hasTarget, hasTarget, htg,
            findTarget_eraseTarget_ne _ _ _ (fun hh => ht hh.symm)]
        rw [if_neg ht, Nat.add_zero, hht]
        exact hb t

theorem hookInv_handler (onEvent : Nat → Int → Bool) (d : Dispatcher) (t2 : Nat)
    (rev : Int) (h : hookInv d) : hookInv (handler onEvent d t2 rev) := by
  obtain ⟨hn, hp, hb⟩ := h
  obtain ⟨h1, h2, h3, h4⟩ := handler_spec onEvent d t2 rev
  refine ⟨by rw [h4]; exact hn, h2.trans hp, ?_⟩
  intro t
  have hca : countApply (handler onEvent d t2 rev).trace t = countApply d.trace t := by
    rw [countApply, h3, countEv_append, countEv_singleton,
      if_neg (fun hh => TraceEv.noConfusion hh), Nat.add_zero]
    rfl
  have hcf : countFree (handler onEvent d t2 rev).trace t = countFree d.trace t := by
    rw [countFree, h3, countEv_append, countEv_singleton,
      if_neg (fun hh => TraceEv.noConfusion hh), Nat.add_zero]
    rfl
  rw [hca, hcf, hasTarget_eq_of_keys_eq d (handler onEvent d t2 rev) t h4]
  exact hb t

theorem hookInv_cleanup (onEvent : Nat → Int → Bool) (d : Dispatcher) (h : hookInv d) :
    hookInv (cleanup onEvent d) := by
  obtain ⟨hn, hp, hb⟩ := h
  obtain ⟨h1, h2, h3, h4⟩ := cleanup_spec onEvent d hn hp
  refine ⟨by rw [h1]; simp [keys], h4, ?_⟩
  intro t
  have hca : countApply (cleanup onEvent d).trace t = countApply d.trace t := by
    rw [countApply, h2, countEv_append, countEv_append,
      countEv_map_eq_zero (fun x => TraceEv.handlerCall x Event.Cleanup)
        (TraceEv.applyCall t) (fun x hx => TraceEv.noConfusion hx) _,
      countEv_map_eq_zero TraceEv.freeCall (TraceEv.applyCall t)
        (fun x hx => TraceEv.noConfusion hx) _]
    simp [countApply]
  have hcf : countFree (cleanup onEvent d).trace t
      = countFree d.trace t + (if t ∈ keys d.targets then 1 else 0) := by
    rw [countFree, h2, countEv_append, countEv_append,
      countEv_map_eq_zero (fun x => TraceEv.handlerCall x Event.Cleanup)
        (TraceEv.freeCall t) (fun x hx => TraceEv.noConfusion hx) _,
      countEv_map_nodup TraceEv.freeCall (fun a b hab => by simpa using hab) _ hn t,
      Nat.add_zero]
    rfl
  have hft : hasTarget (cleanup onEvent d) t = false := by
    rw [hasTarget, h1]
    rfl
  rw [hca, hcf, hft, if_neg Bool.false_ne_true, Nat.add_zero]
  have hb2 := hb t
  by_cases hm : hasTarget d t = true
  · rw [if_pos hm] at hb2
    rw [if_pos ((findTarget_isSome_iff _ _).1 hm), hb2]
  · rw [if_neg hm, Nat.add_zero] at hb2
    rw [if_neg (fun hmem => hm ((findTarget_isSome_iff _ _).2 hmem)), Nat.add_zero, hb2]

theorem runOp_preserves_hookInv (onEvent : Nat → Int → Bool) (d : Dispatcher)
    (op : Op) (h : hookInv d) : hookInv (runOp onEvent d op) := by
  cases op with
  | wtimer t2 q =>
    show hookInv (watch_timer d t2 q).1
    by_cases hc : d.m_cleaning = true
    · rw [show watch_timer d t2 q = (d, false) from by
        show (if d.m_cleaning = true then (d, false) else _) = _
        rw [if_pos hc]]
      exact h
    · have hc2 : d.m_cleaning = false := by revert hc; cases d.m_cleaning <;> simp
      rw [watch_timer_eq d t2 q hc2]
      exact hookInv_watch d t2 _ _ _ h
  | wio t2 fd ev =>
    show hookInv (watch_io d t2 fd ev).1
    by_cases hc : d.m_cleaning = true
    · rw [show watch_io d t2 fd ev = (d, false) from by
        show (if d.m_cleaning = true then (d, false) else _) = _
        rw [if_pos hc]]
      exact h
    · have hc2 : d.m_cleaning = false := by revert hc; cases d.m_cleaning <;> simp
      rw [watch_io_eq d t2 fd ev hc2]
      exact hookInv_watch d t2 _ _ _ h
  | wsig t2 sg =>
    show hookInv (watch_signal d t2 sg).1
    by_cases hc : d.m_cleaning = true
    · rw [show watch_signal d t2 sg = (d, false) from by
        show (if d.m_cleaning = true then (d, false) else _) = _
        rw [if_pos hc]]
      exact h
    · have hc2 : d.m_cleaning = false := by revert hc; cases d.m_cleaning <;> simp
      rw [watch_signal_eq d t2 sg hc2]
      exact hookInv_watch d t2 _ _ _ h
  | enable t2 => exact hookInv_enable d t2 h
  | disable t2 => exact hookInv_disable d t2 h
  | release t2 => exact hookInv_release d t2 h
  | deliver t2 rev => exact hookInv_handler onEvent d t2 rev h
  | clean => exact hookInv_cleanup onEvent d h

theorem foldl_hookInv (onEvent : Nat → Int → Bool) :
    ∀ (ops : List Op) (d : Dispatcher), hookInv d →
      hookInv (ops.foldl (runOp onEvent) d)
  | [], d, h => h
  | op :: ops, d, h =>
    foldl_hookInv onEvent ops _ (runOp_preserves_hookInv onEvent d op h)

/-- Claim C7: over any run of a hook-configured dispatcher, for every
    target the number of `on_apply` calls equals the number of `on_free`
    calls plus one exactly when the target is currently registered —
    so `on_apply` fires once per first registry appearance, `on_free`
    once per removal, and for every released target the counts agree. -/
theorem C7_hook_pairing (onEvent : Nat → Int → Bool) (ops : List Op) (t : Nat) :
    countApply (run onEvent ops).trace t
      = countFree (run onEvent ops).trace t
        + (if hasTarget (run onEvent ops) t = true then 1 else 0) :=
  (foldl_hookInv onEvent ops initHooked hookInv_init).2.2 t

end Squall
